import Mathlib

/-!
Verification of the moon-phase calculator and the moon rasterizer of the
ascii_moon repository (src/main.rs).

Modelling conventions:
- The f64 arithmetic of the source is embedded as exact arithmetic: the
  rasterizer geometry (crop box, fit-to-area, normalized coordinates,
  circle mask) is rational-valued and modelled over the rationals; the
  astronomical formulas and the shading, which use sin, cos and sqrt,
  are modelled over the reals.
- The timestamp argument of calculate_moon_phase is modelled as the real
  number of unix seconds (the source combines timestamp() seconds and
  the subsecond nanoseconds into one f64 before any other use).
- The ratatui cell buffer is modelled as a total function from cell
  coordinates to cell contents; a render call produces a new function.
  Foreground colors keep only the data the source writes (RGB triple,
  256-color index, or the named red / cyan used for labels).
-/

/-! Part 1: the phase calculator (calculate_moon_phase and helpers). -/

/-- Phase names, as in the source enum MoonPhase. -/
inductive MoonPhase where
  | New
  | WaxingCrescent
  | FirstQuarter
  | WaxingGibbous
  | Full
  | WaningGibbous
  | LastQuarter
  | WaningCrescent
  deriving DecidableEq, Repr

/-- Result record of calculate_moon_phase, as in the source struct MoonStatus. -/
structure MoonStatus where
  phase : MoonPhase
  phase_fraction : ℝ
  age_days : ℝ
  illumination : ℝ

/-- Synodic month length in days, the source constant SYNODIC_MONTH. -/
def SYNODIC_MONTH : ℝ := 29.53058867

/-- Truncation toward zero, the rounding used by the Rust % operator on f64. -/
noncomputable def truncR (x : ℝ) : ℤ :=
  if 0 ≤ x then ⌊x⌋ else ⌈x⌉

/-- Source fn normalize_degrees: deg %= 360.0 (truncated remainder), then
add 360.0 if the remainder is negative. -/
noncomputable def normalize_degrees (deg : ℝ) : ℝ :=
  let r := deg - 360 * (truncR (deg / 360) : ℝ)
  if r < 0 then r + 360 else r

/-- Source fn deg_to_rad. -/
noncomputable def deg_to_rad (deg : ℝ) : ℝ := deg * Real.pi / 180

/-- Source fn julian_day_utc, taking the unix timestamp in seconds. -/
noncomputable def julian_day_utc (unixSeconds : ℝ) : ℝ :=
  unixSeconds / 86400 + 2440587.5

/-- Days since the J2000.0 epoch, the local d of calculate_moon_phase. -/
noncomputable def days_since_j2000 (unixSeconds : ℝ) : ℝ :=
  julian_day_utc unixSeconds - 2451545.0

/-- Sun mean longitude, the local l0 of calculate_moon_phase. -/
noncomputable def sun_l0 (d : ℝ) : ℝ :=
  normalize_degrees (280.460 + 0.9856474 * d)

/-- Sun mean anomaly, the local g of calculate_moon_phase. -/
noncomputable def sun_g (d : ℝ) : ℝ :=
  normalize_degrees (357.528 + 0.9856003 * d)

/-- Sun apparent ecliptic longitude, the local lambda_sun of calculate_moon_phase. -/
noncomputable def lambda_sun (d : ℝ) : ℝ :=
  normalize_degrees
    (sun_l0 d + 1.915 * Real.sin (deg_to_rad (sun_g d))
      + 0.020 * Real.sin (deg_to_rad (2 * sun_g d)))

/-- Moon mean longitude, the local l of calculate_moon_phase. -/
noncomputable def moon_l (d : ℝ) : ℝ :=
  normalize_degrees (218.316 + 13.176396 * d)

/-- Moon mean anomaly, the local mm of calculate_moon_phase. -/
noncomputable def moon_mm (d : ℝ) : ℝ :=
  normalize_degrees (134.963 + 13.064993 * d)

/-- Moon mean elongation, the local d_moon of calculate_moon_phase. -/
noncomputable def moon_d (d : ℝ) : ℝ :=
  normalize_degrees (297.850 + 12.190749 * d)

/-- Moon argument of latitude, the local f of calculate_moon_phase. -/
noncomputable def moon_f (d : ℝ) : ℝ :=
  normalize_degrees (93.272 + 13.229350 * d)

/-- Moon ecliptic longitude with the fourteen periodic terms, the local
lambda_moon of calculate_moon_phase, transcribed term by term. -/
noncomputable def lambda_moon (d : ℝ) : ℝ :=
  normalize_degrees
    (moon_l d + 6.289 * Real.sin (deg_to_rad (moon_mm d))
      + 1.274 * Real.sin (deg_to_rad (2 * moon_d d - moon_mm d))
      + 0.658 * Real.sin (deg_to_rad (2 * moon_d d))
      + 0.214 * Real.sin (deg_to_rad (2 * moon_mm d))
      - 0.186 * Real.sin (deg_to_rad (sun_g d))
      - 0.059 * Real.sin (deg_to_rad (2 * moon_d d - 2 * moon_mm d))
      - 0.057 * Real.sin (deg_to_rad (2 * moon_d d - moon_mm d - sun_g d))
      + 0.053 * Real.sin (deg_to_rad (2 * moon_d d + moon_mm d))
      + 0.046 * Real.sin (deg_to_rad (2 * moon_d d - sun_g d))
      + 0.041 * Real.sin (deg_to_rad (moon_mm d - sun_g d))
      - 0.035 * Real.sin (deg_to_rad (moon_d d))
      - 0.031 * Real.sin (deg_to_rad (moon_mm d + sun_g d))
      - 0.015 * Real.sin (deg_to_rad (2 * moon_f d - 2 * moon_d d))
      + 0.011 * Real.sin (deg_to_rad (2 * moon_d d - 4 * moon_mm d)))

/-- Elongation in degrees, the local elongation_deg of calculate_moon_phase. -/
noncomputable def elongation_deg (d : ℝ) : ℝ :=
  normalize_degrees (lambda_moon d - lambda_sun d)

/-- Rounding to the nearest integer with ties away from zero, the semantics
of f64::round used on phase_fraction * 8.0. -/
noncomputable def roundHalfAway (x : ℝ) : ℤ :=
  if 0 ≤ x then ⌊x + 1/2⌋ else -⌊-x + 1/2⌋

/-- Phase-name selection of calculate_moon_phase: segment :=
round(f * 8) as i32 % 8 (truncated remainder), then the match. -/
noncomputable def phaseFromFraction (f : ℝ) : MoonPhase :=
  let segment := (roundHalfAway (f * 8)).tmod 8
  if segment = 0 then MoonPhase.New
  else if segment = 1 then MoonPhase.WaxingCrescent
  else if segment = 2 then MoonPhase.FirstQuarter
  else if segment = 3 then MoonPhase.WaxingGibbous
  else if segment = 4 then MoonPhase.Full
  else if segment = 5 then MoonPhase.WaningGibbous
  else if segment = 6 then MoonPhase.LastQuarter
  else if segment = 7 then MoonPhase.WaningCrescent
  else MoonPhase.New

/-- Source fn calculate_moon_phase, with the timestamp given as real unix
seconds. The elongation-based phase fraction drives every field. -/
noncomputable def calculate_moon_phase (unixSeconds : ℝ) : MoonStatus :=
  { phase := phaseFromFraction (elongation_deg (days_since_j2000 unixSeconds) / 360)
    phase_fraction := elongation_deg (days_since_j2000 unixSeconds) / 360
    age_days := elongation_deg (days_since_j2000 unixSeconds) / 360 * SYNODIC_MONTH
    illumination :=
      0.5 * (1 - Real.cos (deg_to_rad (elongation_deg (days_since_j2000 unixSeconds)))) * 100 }

/-! Basic facts about normalize_degrees. -/

lemma normalize_degrees_eq_fract (x : ℝ) :
    normalize_degrees x = 360 * Int.fract (x / 360) := by
  unfold normalize_degrees truncR
  by_cases hx : 0 ≤ x / 360
  · rw [if_pos hx]
    have hfr : Int.fract (x / 360) = x / 360 - ⌊x / 360⌋ := rfl
    have hval : x - 360 * (⌊x / 360⌋ : ℝ) = 360 * Int.fract (x / 360) := by
      rw [hfr]; ring
    rw [if_neg]
    · exact hval
    · rw [hval]
      have := Int.fract_nonneg (x / 360)
      push_neg
      positivity
  · rw [if_neg hx]
    push_neg at hx
    by_cases hz : Int.fract (x / 360) = 0
    · obtain ⟨k, hk⟩ : ∃ k : ℤ, (k : ℝ) = x / 360 := ⟨⌊x / 360⌋, by
        have := Int.self_sub_fract (x / 360)
        rw [hz] at this
        simpa using this.symm⟩
      have hceil : (⌈x / 360⌉ : ℤ) = k := by rw [← hk]; exact Int.ceil_intCast k
      have hx360 : x = 360 * (k : ℝ) := by
        field_simp at hk
        linarith [hk]
      rw [hceil, hz, hx360]
      norm_num
    · have hflt : (⌊x / 360⌋ : ℝ) < x / 360 := by
        rcases lt_or_eq_of_le (Int.floor_le (x / 360)) with h | h
        · exact h
        · exact absurd (by rw [← h]; simp [Int.fract]) hz
      have hceil : ⌈x / 360⌉ = ⌊x / 360⌋ + 1 := by
        refine le_antisymm (Int.ceil_le_floor_add_one _) ?_
        rw [Int.add_one_le_iff, Int.lt_ceil]
        exact hflt
      have hfr : Int.fract (x / 360) = x / 360 - ⌊x / 360⌋ := rfl
      have hlt1 : Int.fract (x / 360) < 1 := Int.fract_lt_one _
      rw [hceil, if_pos]
      · push_cast
        rw [hfr]
        ring
      · push_cast
        rw [show x - 360 * ((⌊x / 360⌋ : ℝ) + 1) = 360 * Int.fract (x / 360) - 360 by
          rw [hfr]; ring]
        linarith

lemma normalize_degrees_nonneg (x : ℝ) : 0 ≤ normalize_degrees x := by
  rw [normalize_degrees_eq_fract]
  have := Int.fract_nonneg (x / 360)
  linarith

lemma normalize_degrees_lt (x : ℝ) : normalize_degrees x < 360 := by
  rw [normalize_degrees_eq_fract]
  have := Int.fract_lt_one (x / 360)
  linarith

lemma normalize_degrees_sub_left (x y : ℝ) :
    normalize_degrees (normalize_degrees x - y) = normalize_degrees (x - y) := by
  rw [normalize_degrees_eq_fract, normalize_degrees_eq_fract, normalize_degrees_eq_fract]
  have harg : (360 * Int.fract (x / 360) - y) / 360 = (x - y) / 360 - (⌊x / 360⌋ : ℝ) := by
    have hfr : Int.fract (x / 360) = x / 360 - ⌊x / 360⌋ := rfl
    rw [hfr]
    field_simp
    ring
  rw [harg, Int.fract_sub_int]

/-! Spec-side forms used by the claims about the phase calculator. -/

/-- Coefficient and argument of each of the fourteen periodic correction
terms of the moon longitude, in the order the specification lists them. -/
noncomputable def moonPeriodicTerms (d : ℝ) : List (ℝ × ℝ) :=
  [(6.289, moon_mm d),
   (1.274, 2 * moon_d d - moon_mm d),
   (0.658, 2 * moon_d d),
   (0.214, 2 * moon_mm d),
   (-0.186, sun_g d),
   (-0.059, 2 * moon_d d - 2 * moon_mm d),
   (-0.057, 2 * moon_d d - moon_mm d - sun_g d),
   (0.053, 2 * moon_d d + moon_mm d),
   (0.046, 2 * moon_d d - sun_g d),
   (0.041, moon_mm d - sun_g d),
   (-0.035, moon_d d),
   (-0.031, moon_mm d + sun_g d),
   (-0.015, 2 * moon_f d - 2 * moon_d d),
   (0.011, 2 * moon_d d - 4 * moon_mm d)]

/-- Moon ecliptic longitude in the form the specification describes it:
the mean longitude plus the sum of the fourteen sine correction terms. -/
noncomputable def specMoonLongitude (d : ℝ) : ℝ :=
  moon_l d + ((moonPeriodicTerms d).map (fun t => t.1 * Real.sin (deg_to_rad t.2))).sum

/-- Illumination as a function of the phase fraction, in the form the
specification states it. -/
noncomputable def illumination_of (f : ℝ) : ℝ :=
  0.5 * (1 - Real.cos (f * (2 * Real.pi))) * 100

/-- Phase names in segment order, as the specification lists them. -/
def phaseList : List MoonPhase :=
  [MoonPhase.New, MoonPhase.WaxingCrescent, MoonPhase.FirstQuarter,
   MoonPhase.WaxingGibbous, MoonPhase.Full, MoonPhase.WaningGibbous,
   MoonPhase.LastQuarter, MoonPhase.WaningCrescent]

lemma lambda_moon_eq_spec (d : ℝ) :
    lambda_moon d = normalize_degrees (specMoonLongitude d) := by
  unfold lambda_moon specMoonLongitude moonPeriodicTerms
  simp only [List.map_cons, List.map_nil, List.sum_cons, List.sum_nil]
  ring_nf

/-- Claim C4: for every timestamp the moon ecliptic longitude is the mean
longitude plus exactly fourteen sine correction terms with the listed
degree coefficients and argument combinations, and the phase fraction is
the normalized elongation (moon longitude minus sun longitude brought
into [0,360)) divided by 360. -/
theorem meeus_moon_longitude_terms (unixSeconds : ℝ) :
    (moonPeriodicTerms (days_since_j2000 unixSeconds)).length = 14 ∧
    lambda_moon (days_since_j2000 unixSeconds) =
      normalize_degrees (specMoonLongitude (days_since_j2000 unixSeconds)) ∧
    (calculate_moon_phase unixSeconds).phase_fraction =
      normalize_degrees (specMoonLongitude (days_since_j2000 unixSeconds)
        - lambda_sun (days_since_j2000 unixSeconds)) / 360 := by
  refine ⟨by simp [moonPeriodicTerms], lambda_moon_eq_spec _, ?_⟩
  show elongation_deg (days_since_j2000 unixSeconds) / 360 = _
  unfold elongation_deg
  rw [lambda_moon_eq_spec, normalize_degrees_sub_left]

/-- Claim C9: the phase fraction returned by the phase calculator lies in the
half-open interval [0,1) for every finite timestamp. -/
theorem phase_fraction_range (unixSeconds : ℝ) :
    0 ≤ (calculate_moon_phase unixSeconds).phase_fraction ∧
    (calculate_moon_phase unixSeconds).phase_fraction < 1 := by
  show 0 ≤ elongation_deg (days_since_j2000 unixSeconds) / 360 ∧
    elongation_deg (days_since_j2000 unixSeconds) / 360 < 1
  have h0 := normalize_degrees_nonneg
    (lambda_moon (days_since_j2000 unixSeconds) - lambda_sun (days_since_j2000 unixSeconds))
  have h1 := normalize_degrees_lt
    (lambda_moon (days_since_j2000 unixSeconds) - lambda_sun (days_since_j2000 unixSeconds))
  unfold elongation_deg
  constructor
  · positivity
  · linarith

lemma illumination_eq_of_fraction (unixSeconds : ℝ) :
    (calculate_moon_phase unixSeconds).illumination =
      illumination_of ((calculate_moon_phase unixSeconds).phase_fraction) := by
  show 0.5 * (1 - Real.cos (deg_to_rad (elongation_deg (days_since_j2000 unixSeconds)))) * 100
      = illumination_of (elongation_deg (days_since_j2000 unixSeconds) / 360)
  unfold illumination_of deg_to_rad
  have harg : elongation_deg (days_since_j2000 unixSeconds) * Real.pi / 180
      = elongation_deg (days_since_j2000 unixSeconds) / 360 * (2 * Real.pi) := by
    ring
  rw [harg]

lemma illumination_of_bounds (f : ℝ) :
    0 ≤ illumination_of f ∧ illumination_of f ≤ 100 := by
  unfold illumination_of
  have h1 := Real.cos_le_one (f * (2 * Real.pi))
  have h2 := Real.neg_one_le_cos (f * (2 * Real.pi))
  constructor <;> nlinarith

lemma illumination_of_monotone :
    MonotoneOn illumination_of (Set.Icc 0 (1/2 : ℝ)) := by
  intro a ha b hb hab
  obtain ⟨ha0, ha1⟩ := ha
  obtain ⟨hb0, hb1⟩ := hb
  have hpi := Real.pi_pos
  have hma : a * (2 * Real.pi) ∈ Set.Icc 0 Real.pi := by
    constructor
    · positivity
    · nlinarith
  have hmb : b * (2 * Real.pi) ∈ Set.Icc 0 Real.pi := by
    constructor
    · positivity
    · nlinarith
  have hle : a * (2 * Real.pi) ≤ b * (2 * Real.pi) := by nlinarith
  have hcos : Real.cos (b * (2 * Real.pi)) ≤ Real.cos (a * (2 * Real.pi)) :=
    Real.strictAntiOn_cos.antitoneOn hma hmb hle
  unfold illumination_of
  nlinarith

lemma illumination_of_antitone :
    AntitoneOn illumination_of (Set.Ico (1/2 : ℝ) 1) := by
  intro a ha b hb hab
  obtain ⟨ha0, ha1⟩ := ha
  obtain ⟨hb0, hb1⟩ := hb
  have hpi := Real.pi_pos
  have hma : 2 * Real.pi - a * (2 * Real.pi) ∈ Set.Icc 0 Real.pi := by
    constructor <;> nlinarith
  have hmb : 2 * Real.pi - b * (2 * Real.pi) ∈ Set.Icc 0 Real.pi := by
    constructor <;> nlinarith
  have hle : 2 * Real.pi - b * (2 * Real.pi) ≤ 2 * Real.pi - a * (2 * Real.pi) := by
    nlinarith
  have hcos := Real.strictAntiOn_cos.antitoneOn hmb hma hle
  rw [Real.cos_two_pi_sub, Real.cos_two_pi_sub] at hcos
  unfold illumination_of
  nlinarith

/-- Claim C5: the illumination percentage is exactly 0.5 * (1 - cos(phase_fraction * 2pi)) * 100,
lies in [0,100] on [0,1), is 0 at fraction 0 and 100 at fraction 1/2, and is
monotone non-decreasing on [0,1/2] and non-increasing on [1/2,1). -/
theorem illumination_properties :
    (∀ unixSeconds : ℝ, (calculate_moon_phase unixSeconds).illumination =
      illumination_of ((calculate_moon_phase unixSeconds).phase_fraction)) ∧
    (∀ f : ℝ, 0 ≤ f → f < 1 → 0 ≤ illumination_of f ∧ illumination_of f ≤ 100) ∧
    illumination_of 0 = 0 ∧
    illumination_of (1/2) = 100 ∧
    MonotoneOn illumination_of (Set.Icc 0 (1/2 : ℝ)) ∧
    AntitoneOn illumination_of (Set.Ico (1/2 : ℝ) 1) := by
  refine ⟨illumination_eq_of_fraction, fun f _ _ => illumination_of_bounds f, ?_, ?_,
    illumination_of_monotone, illumination_of_antitone⟩
  · unfold illumination_of
    norm_num
  · unfold illumination_of
    rw [show (1/2 : ℝ) * (2 * Real.pi) = Real.pi by ring, Real.cos_pi]
    norm_num

/-- Witness for C5 at the concrete fraction 1/4. -/
theorem illumination_properties_witness :
    0 ≤ illumination_of (1/4) ∧ illumination_of (1/4) ≤ 100 :=
  illumination_properties.2.1 (1/4) (by norm_num) (by norm_num)

/-- Claim C6: the phase name is chosen by rounding phase_fraction * 8 to the
nearest integer (ties away from zero) and reducing modulo 8, which indexes
the eight phase names in order; fraction 0 gives New, 1/2 gives Full, and
1/8 gives WaxingCrescent. -/
theorem phase_name_discretization :
    (∀ unixSeconds : ℝ, (calculate_moon_phase unixSeconds).phase =
      phaseFromFraction ((calculate_moon_phase unixSeconds).phase_fraction)) ∧
    (∀ f : ℝ, 0 ≤ f → f < 1 →
      phaseFromFraction f =
        phaseList.getD ((roundHalfAway (f * 8)).tmod 8).toNat MoonPhase.New) ∧
    phaseFromFraction 0 = MoonPhase.New ∧
    phaseFromFraction (1/2) = MoonPhase.Full ∧
    phaseFromFraction (1/8) = MoonPhase.WaxingCrescent := by
  refine ⟨fun _ => rfl, ?_, ?_, ?_, ?_⟩
  · intro f h0 h1
    have h8 : (0:ℝ) ≤ f * 8 := by nlinarith
    have hr : roundHalfAway (f * 8) = ⌊f * 8 + 1/2⌋ := if_pos h8
    have hn0 : 0 ≤ ⌊f * 8 + 1/2⌋ := Int.le_floor.mpr (by norm_num; linarith)
    have hn8 : ⌊f * 8 + 1/2⌋ ≤ 8 := by
      have h : ⌊f * 8 + 1/2⌋ ≤ ⌊(17/2 : ℝ)⌋ := Int.floor_le_floor (by nlinarith)
      have h2 : ⌊(17/2 : ℝ)⌋ = 8 := by norm_num
      omega
    unfold phaseFromFraction
    rw [hr]
    generalize hn : ⌊f * 8 + 1/2⌋ = n at hn0 hn8
    interval_cases n <;> decide
  · have hr : roundHalfAway ((0:ℝ) * 8) = 0 := by
      unfold roundHalfAway
      norm_num
    unfold phaseFromFraction
    rw [hr]
    decide
  · have hr : roundHalfAway ((1/2:ℝ) * 8) = 4 := by
      unfold roundHalfAway
      rw [if_pos (by norm_num)]
      norm_num
    unfold phaseFromFraction
    rw [hr]
    decide
  · have hr : roundHalfAway ((1/8:ℝ) * 8) = 1 := by
      unfold roundHalfAway
      rw [if_pos (by norm_num)]
      norm_num
    unfold phaseFromFraction
    rw [hr]
    decide

/-- Witness for C6 at the concrete fraction 1/2. -/
theorem phase_name_discretization_witness :
    phaseFromFraction (1/2) =
      phaseList.getD ((roundHalfAway ((1/2 : ℝ) * 8)).tmod 8).toNat MoonPhase.New :=
  phase_name_discretization.2.1 (1/2) (by norm_num) (by norm_num)

/-! Part 2: the moon rasterizer (MoonWidget::render). -/

/-- Target area rectangle, as the ratatui Rect fields used by render. -/
structure Rect where
  left : ℕ
  top : ℕ
  width : ℕ
  height : ℕ
  deriving DecidableEq

/-- Right edge of a rectangle, as ratatui Rect::right. -/
def Rect.right (a : Rect) : ℕ := a.left + a.width

/-- Bottom edge of a rectangle, as ratatui Rect::bottom. -/
def Rect.bottom (a : Rect) : ℕ := a.top + a.height

/-- Bounding box of the non-space characters of the texture, the four
locals min_x, max_x, min_y, max_y of render. -/
structure CropBox where
  minX : ℕ
  maxX : ℕ
  minY : ℕ
  maxY : ℕ
  deriving DecidableEq

/-- Texture preprocessing of render: keep the non-empty lines. -/
def sourceLines (art : List (List Char)) : List (List Char) :=
  art.filter (fun l => !l.isEmpty)

/-- One step of the bounding-box scan: widen the box by one character if it
is not a space. A state of none means no non-space character seen yet,
matching the sentinel initialisation (min = usize::MAX, max = 0) whose
inverted-state test min_x > max_x the source uses afterwards. -/
def cropUpdate (st : Option CropBox) (y x : ℕ) (ch : Char) : Option CropBox :=
  if ch ≠ ' ' then
    match st with
    | none => some ⟨x, x, y, y⟩
    | some cb => some ⟨min cb.minX x, max cb.maxX x, min cb.minY y, max cb.maxY y⟩
  else st

/-- Bounding-box scan of render over every (row, column) character. -/
def cropBox (lines : List (List Char)) : Option CropBox :=
  lines.enum.foldl
    (fun st yrow => yrow.2.enum.foldl (fun st2 xch => cropUpdate st2 yrow.1 xch.1 xch.2) st)
    none

/-- Crop width in cells, the local crop_w of render (exact, as a rational). -/
def crop_w (c : CropBox) : ℚ := ((c.maxX - c.minX + 1 : ℕ) : ℚ)

/-- Crop height in cells, the local crop_h of render. -/
def crop_h (c : CropBox) : ℚ := ((c.maxY - c.minY + 1 : ℕ) : ℚ)

/-- Aspect ratio of the cropped texture, the local art_aspect of render. -/
def art_aspect (c : CropBox) : ℚ := crop_w c / crop_h c

/-- Available width, the local avail_w of render. -/
def avail_w (a : Rect) : ℚ := (a.width : ℚ)

/-- Available height, the local avail_h of render. -/
def avail_h (a : Rect) : ℚ := (a.height : ℚ)

/-- Drawing dimensions (draw_w, draw_h) of render: width-limited when the
area aspect is below the art aspect, height-limited otherwise. -/
def drawDims (c : CropBox) (a : Rect) : ℚ × ℚ :=
  if avail_w a / avail_h a < art_aspect c then
    (avail_w a, avail_w a / art_aspect c)
  else
    (avail_h a * art_aspect c, avail_h a)

/-- Left edge of the drawn rectangle, the local start_x of render. -/
def startX (c : CropBox) (a : Rect) : ℚ :=
  (a.left : ℚ) + (avail_w a - (drawDims c a).1) / 2

/-- Top edge of the drawn rectangle, the local start_y of render. -/
def startY (c : CropBox) (a : Rect) : ℚ :=
  (a.top : ℚ) + (avail_h a - (drawDims c a).2) / 2

/-- Normalized x coordinate of a cell relative to the drawn rectangle,
the local nx of render. -/
def nxOf (c : CropBox) (a : Rect) (x : ℕ) : ℚ :=
  ((x : ℚ) - startX c a) / (drawDims c a).1

/-- Normalized y coordinate of a cell relative to the drawn rectangle,
the local ny of render. -/
def nyOf (c : CropBox) (a : Rect) (y : ℕ) : ℚ :=
  ((y : ℚ) - startY c a) / (drawDims c a).2

/-- Source row index sampled for a cell, the local src_y of render. -/
def srcY (c : CropBox) (a : Rect) (y : ℕ) : ℕ :=
  (⌊(c.minY : ℚ) + nyOf c a y * crop_h c⌋).toNat

/-- Source column index sampled for a cell, the local src_x of render. -/
def srcX (c : CropBox) (a : Rect) (x : ℕ) : ℕ :=
  (⌊(c.minX : ℚ) + nxOf c a x * crop_w c⌋).toNat

/-- Character sampled for a cell (space when the row is shorter than the
sampled column), the local ch of render. -/
def sampleChar (src : List (List Char)) (c : CropBox) (a : Rect) (x y : ℕ) : Char :=
  (src.getD (srcY c a y) []).getD (srcX c a x) ' '

/-- Squared distance of the normalized cell coordinates from the center of
the drawn rectangle, the local dist_sq of render. -/
def distSq (c : CropBox) (a : Rect) (x y : ℕ) : ℚ :=
  (nxOf c a x - 0.5) * (nxOf c a x - 0.5) + (nyOf c a y - 0.5) * (nyOf c a y - 0.5)

/-- Sphere-local horizontal coordinate, the local u of render. -/
def uOf (c : CropBox) (a : Rect) (x : ℕ) : ℚ := (nxOf c a x - 0.5) * 2

/-- Sphere-local vertical coordinate, the local v of render. -/
def vOf (c : CropBox) (a : Rect) (y : ℕ) : ℚ := (nyOf c a y - 0.5) * 2

/-- Viewer-facing depth of the sphere surface, the local z of render. -/
noncomputable def zOf (c : CropBox) (a : Rect) (x y : ℕ) : ℝ :=
  Real.sqrt (1 - (uOf c a x : ℝ) * (uOf c a x : ℝ) - (vOf c a y : ℝ) * (vOf c a y : ℝ))

/-- Illumination dot product as render computes it: angle = phase * 2 * pi,
sun = (sin angle, 0, -cos angle), intensity = u * sun_x + z * sun_z. -/
noncomputable def intensity (c : CropBox) (a : Rect) (phase : ℝ) (x y : ℕ) : ℝ :=
  (uOf c a x : ℝ) * Real.sin (phase * 2 * Real.pi)
    + zOf c a x y * (-Real.cos (phase * 2 * Real.pi))

/-- Illumination dot product in the form the specification states it. -/
noncomputable def specIntensity (c : CropBox) (a : Rect) (phase : ℝ) (x y : ℕ) : ℝ :=
  (uOf c a x : ℝ) * Real.sin (2 * Real.pi * phase)
    + zOf c a x y * (-Real.cos (2 * Real.pi * phase))

/-- Color family of a written moon-body cell. -/
inductive Fam where
  | lit
  | shadow
  deriving DecidableEq

/-- Per-cell body pass of render, given the crop box: the chain of guards
(inside the drawn rectangle, sampled row exists, inside the circle mask)
followed by the lit / shadow / hidden decision. A result of none means the
cell is left untouched. -/
noncomputable def renderBodyCell (src : List (List Char)) (c : CropBox) (a : Rect)
    (phase : ℝ) (hideDark : Bool) (x y : ℕ) : Option (Char × Fam) :=
  if ¬(0 ≤ nyOf c a y ∧ nyOf c a y < 1) ∨ ¬(0 ≤ nxOf c a x ∧ nxOf c a x < 1) then none
  else if src.length ≤ srcY c a y then none
  else if distSq c a x y > 0.25 then none
  else if 0 < intensity c a phase x y then some (sampleChar src c a x y, Fam.lit)
  else if hideDark = false then some (sampleChar src c a x y, Fam.shadow)
  else none

/-- Foreground colors the renderer writes. -/
inductive Color where
  | rgb (r g b : ℕ)
  | indexed (n : ℕ)
  | red
  | cyan
  deriving DecidableEq

/-- Source fn moon_lit_color: warm gold, as RGB or 256-color index. -/
def moon_lit_color (truecolor : Bool) : Color :=
  if truecolor then Color.rgb 232 208 88 else Color.indexed 214

/-- Source fn moon_shadow_color: soft graphite, as RGB or 256-color index. -/
def moon_shadow_color (truecolor : Bool) : Color :=
  if truecolor then Color.rgb 92 92 98 else Color.indexed 242

/-- Color for a body cell family, matching the two branches of render. -/
def famColor (truecolor : Bool) : Fam → Color
  | Fam.lit => moon_lit_color truecolor
  | Fam.shadow => moon_shadow_color truecolor

/-- Cell buffer: every coordinate holds a character and a foreground color. -/
abbrev MoonBuffer := ℕ × ℕ → Char × Color

/-- Write one cell of the buffer. -/
def writeCell (b : MoonBuffer) (x y : ℕ) (cell : Char × Color) : MoonBuffer :=
  fun p => if p = (x, y) then cell else b p

/-- Membership of a cell in the target area, the loop bounds of render and
the bounds check of the label pass. -/
def inArea (a : Rect) (p : ℕ × ℕ) : Prop :=
  a.left ≤ p.1 ∧ p.1 < a.right ∧ a.top ≤ p.2 ∧ p.2 < a.bottom

instance (a : Rect) (p : ℕ × ℕ) : Decidable (inArea a p) := by
  unfold inArea
  exact inferInstance

/-- Surface landmark, as the source struct Feature; the five per-language
names are kept as a list of character lists. -/
structure Feature where
  names : List (List Char)
  lat : ℚ
  lon : ℚ

/-- Horizontal orthographic-projection coordinate of a feature, the local
u of the label pass: cos(lat) * sin(lon) in radians. -/
noncomputable def featureU (f : Feature) : ℝ :=
  Real.cos (deg_to_rad (f.lat : ℝ)) * Real.sin (deg_to_rad (f.lon : ℝ))

/-- Vertical orthographic-projection coordinate of a feature, the local v
of the label pass: sin(lat). -/
noncomputable def featureV (f : Feature) : ℝ :=
  Real.sin (deg_to_rad (f.lat : ℝ))

/-- Normalized screen x of a feature: scale 0.95, offset -0.10, then
nx = 0.5 + u_adj / 2. -/
noncomputable def featureNx (f : Feature) : ℝ :=
  0.5 + (featureU f * 0.95 - 0.10) / 2

/-- Normalized screen y of a feature: scale 0.95, offset -0.10, then
ny = 0.5 - v_adj / 2 (v flipped because screen y grows downward). -/
noncomputable def featureNy (f : Feature) : ℝ :=
  0.5 - (featureV f * 0.95 - 0.10) / 2

/-- Saturating conversion of an f64 to u16 (the `as u16` casts of the
label pass): truncation toward zero, clamped to 0..65535. -/
noncomputable def u16ofReal (r : ℝ) : ℕ :=
  if r < 0 then 0 else min (⌊r⌋.toNat) 65535

/-- Absolute column of a feature marker, the local x_idx of render. -/
noncomputable def feature_x (c : CropBox) (a : Rect) (f : Feature) : ℕ :=
  u16ofReal ((startX c a : ℝ) + featureNx f * ((drawDims c a).1 : ℝ))

/-- Absolute row of a feature marker, the local y_idx of render. -/
noncomputable def feature_y (c : CropBox) (a : Rect) (f : Feature) : ℕ :=
  u16ofReal ((startY c a : ℝ) + featureNy f * ((drawDims c a).2 : ℝ))

/-- Display width of a name, given the per-character width function of the
unicode-width collaborator. -/
def strWidth (uw : Char → ℕ) (s : List Char) : ℕ := (s.map uw).sum

/-- Buffer write of a name string starting at a column, each character
advancing by its display width, as ratatui set_string. -/
def writeStr (uw : Char → ℕ) : MoonBuffer → ℕ → ℕ → List Char → MoonBuffer
  | b, _, _, [] => b
  | b, x, y, ch :: rest => writeStr uw (writeCell b x y (ch, Color.cyan)) (x + uw ch) y rest

/-- Label pass of render for one feature: write the marker when its cell
lies inside the area, and the name to its right only when the whole name
fits strictly before the right edge. -/
noncomputable def labelStep (a : Rect) (c : CropBox) (uw : Char → ℕ) (lang : ℕ)
    (b : MoonBuffer) (f : Feature) : MoonBuffer :=
  if inArea a (feature_x c a f, feature_y c a f) then
    let b1 := writeCell b (feature_x c a f) (feature_y c a f) ('x', Color.red)
    if feature_x c a f + 1 + strWidth uw (f.names.getD lang []) < a.right then
      writeStr uw b1 (feature_x c a f + 1) (feature_y c a f) (f.names.getD lang [])
    else b1
  else b

/-- Per-area body pass of render: every cell of the target area receives
the body-pass result when one is produced, every other cell keeps its
previous content. -/
noncomputable def bodyPass (src : List (List Char)) (c : CropBox) (a : Rect)
    (phase : ℝ) (hideDark truecolor : Bool) (buf : MoonBuffer) : MoonBuffer :=
  fun p =>
    if inArea a p then
      match renderBodyCell src c a phase hideDark p.1 p.2 with
      | some cf => (cf.1, famColor truecolor cf.2)
      | none => buf p
    else buf p

/-- Label pass of render: fold labelStep over the features in order. -/
noncomputable def labelPass (a : Rect) (c : CropBox) (uw : Char → ℕ) (lang : ℕ)
    (features : List Feature) (b : MoonBuffer) : MoonBuffer :=
  features.foldl (fun b f => labelStep a c uw lang b f) b

/-- Source fn MoonWidget::render over the embedded buffer: early return on
an empty or all-space texture, the per-cell body pass over the area, then
the label pass over the features when show_labels is set. -/
noncomputable def render (art : List (List Char)) (features : List Feature)
    (uw : Char → ℕ) (a : Rect) (phase : ℝ) (showLabels hideDark : Bool) (lang : ℕ)
    (truecolor : Bool) (buf : MoonBuffer) : MoonBuffer :=
  if sourceLines art = [] then buf
  else
    match cropBox (sourceLines art) with
    | none => buf
    | some c =>
      if showLabels then
        labelPass a c uw lang features (bodyPass (sourceLines art) c a phase hideDark truecolor buf)
      else bodyPass (sourceLines art) c a phase hideDark truecolor buf

/-! Claims about the fit-to-area geometry and the body pass. -/

/-- Claim C1: with a positive target area, the drawing dimensions follow the
width-limited / height-limited rule, their ratio equals the crop ratio,
and the drawn rectangle is centered with equal margins on each axis. -/
theorem aspect_fit_correct (c : CropBox) (a : Rect)
    (hw : 0 < a.width) (hh : 0 < a.height) :
    (avail_w a / avail_h a < art_aspect c →
      (drawDims c a).1 = avail_w a ∧ (drawDims c a).2 = avail_w a / art_aspect c) ∧
    (¬(avail_w a / avail_h a < art_aspect c) →
      (drawDims c a).2 = avail_h a ∧ (drawDims c a).1 = avail_h a * art_aspect c) ∧
    (drawDims c a).1 / (drawDims c a).2 = crop_w c / crop_h c ∧
    startX c a - (a.left : ℚ) = (avail_w a - (drawDims c a).1) / 2 ∧
    ((a.left : ℚ) + avail_w a) - (startX c a + (drawDims c a).1)
      = (avail_w a - (drawDims c a).1) / 2 ∧
    startY c a - (a.top : ℚ) = (avail_h a - (drawDims c a).2) / 2 ∧
    ((a.top : ℚ) + avail_h a) - (startY c a + (drawDims c a).2)
      = (avail_h a - (drawDims c a).2) / 2 := by
  have hcw : (0:ℚ) < crop_w c := by
    unfold crop_w
    exact_mod_cast Nat.succ_pos (c.maxX - c.minX)
  have hch : (0:ℚ) < crop_h c := by
    unfold crop_h
    exact_mod_cast Nat.succ_pos (c.maxY - c.minY)
  have hasp : 0 < art_aspect c := div_pos hcw hch
  have haw : 0 < avail_w a := by
    unfold avail_w
    exact_mod_cast hw
  have hah : 0 < avail_h a := by
    unfold avail_h
    exact_mod_cast hh
  refine ⟨?_, ?_, ?_, by unfold startX; ring, by unfold startX; ring,
    by unfold startY; ring, by unfold startY; ring⟩
  · intro hlt
    unfold drawDims
    rw [if_pos hlt]
    exact ⟨rfl, rfl⟩
  · intro hge
    unfold drawDims
    rw [if_neg hge]
    exact ⟨rfl, rfl⟩
  · by_cases hlt : avail_w a / avail_h a < art_aspect c
    · unfold drawDims
      rw [if_pos hlt]
      show avail_w a / (avail_w a / art_aspect c) = crop_w c / crop_h c
      rw [div_div_eq_mul_div, mul_comm, mul_div_assoc, div_self haw.ne', mul_one]
      rfl
    · unfold drawDims
      rw [if_neg hlt]
      show avail_h a * art_aspect c / avail_h a = crop_w c / crop_h c
      rw [mul_comm, mul_div_assoc, div_self hah.ne', mul_one]
      rfl

/-- Claim C2: the body pass writes a cell only when the squared distance of its
normalized coordinates from the center is at most 0.25, and any cell
beyond that bound is left completely untouched (result none). -/
theorem body_mask_invariant (src : List (List Char)) (c : CropBox) (a : Rect)
    (phase : ℝ) (hd : Bool) (x y : ℕ) :
    ((renderBodyCell src c a phase hd x y).isSome → distSq c a x y ≤ 0.25) ∧
    (0.25 < distSq c a x y → renderBodyCell src c a phase hd x y = none) := by
  constructor
  · intro hs
    unfold renderBodyCell at hs
    split_ifs at hs with h1 h2 h3 h4 h5
    all_goals first
      | exact le_of_not_lt h3
      | simp at hs
  · intro hgt
    unfold renderBodyCell
    split_ifs <;> rfl

/-- Claim C3: on a cell that passes the drawn-rectangle, sampling and mask
guards, the body pass emits the sampled character in the lit family when
the intensity u * sin(2 pi f) + z * (-cos(2 pi f)) is positive, in the
shadow family when it is not positive and hide_dark is unset, and nothing
at all when it is not positive and hide_dark is set. -/
theorem body_shading_trichotomy (src : List (List Char)) (c : CropBox) (a : Rect)
    (phase : ℝ) (hd : Bool) (x y : ℕ)
    (h1 : 0 ≤ nyOf c a y ∧ nyOf c a y < 1) (h2 : 0 ≤ nxOf c a x ∧ nxOf c a x < 1)
    (h3 : srcY c a y < src.length) (h4 : distSq c a x y ≤ 0.25) :
    renderBodyCell src c a phase hd x y =
      if 0 < specIntensity c a phase x y then some (sampleChar src c a x y, Fam.lit)
      else if hd = false then some (sampleChar src c a x y, Fam.shadow)
      else none := by
  have hint : intensity c a phase x y = specIntensity c a phase x y := by
    unfold intensity specIntensity
    rw [show phase * 2 * Real.pi = 2 * Real.pi * phase by ring]
  unfold renderBodyCell
  rw [if_neg (by push_neg; exact ⟨h1, h2⟩), if_neg (not_le.mpr h3),
    if_neg (not_lt.mpr h4), hint]

/-! Concrete inputs used by the witnesses of the rasterizer claims. -/

/-- Tiny all-filled 2 by 2 texture. -/
def art0 : List (List Char) := [['#', '#'], ['#', '#']]

/-- Crop box of art0. -/
def c0 : CropBox := ⟨0, 1, 0, 1⟩

/-- A 2 by 2 target area at the origin. -/
def a0 : Rect := ⟨0, 0, 2, 2⟩

/-- A constant initial buffer. -/
def buf0 : MoonBuffer := fun _ => (' ', Color.red)

/-- Width function assigning display width one to every character. -/
def uwOne : Char → ℕ := fun _ => 1

lemma cropBox_art0 : cropBox (sourceLines art0) = some c0 := by decide

lemma drawDims_ex : drawDims c0 a0 = (2, 2) := by
  unfold drawDims avail_w avail_h art_aspect crop_w crop_h a0 c0
  norm_num

lemma startX_ex : startX c0 a0 = 0 := by
  unfold startX
  rw [drawDims_ex]
  unfold avail_w a0
  norm_num

lemma startY_ex : startY c0 a0 = 0 := by
  unfold startY
  rw [drawDims_ex]
  unfold avail_h a0
  norm_num

lemma nx_ex0 : nxOf c0 a0 0 = 0 := by
  unfold nxOf
  rw [startX_ex, drawDims_ex]
  norm_num

lemma nx_ex1 : nxOf c0 a0 1 = 1/2 := by
  unfold nxOf
  rw [startX_ex, drawDims_ex]
  norm_num

lemma ny_ex0 : nyOf c0 a0 0 = 0 := by
  unfold nyOf
  rw [startY_ex, drawDims_ex]
  norm_num

lemma ny_ex1 : nyOf c0 a0 1 = 1/2 := by
  unfold nyOf
  rw [startY_ex, drawDims_ex]
  norm_num

lemma distSq_ex00 : distSq c0 a0 0 0 = 1/2 := by
  unfold distSq
  rw [nx_ex0, ny_ex0]
  norm_num

lemma distSq_ex11 : distSq c0 a0 1 1 = 0 := by
  unfold distSq
  rw [nx_ex1, ny_ex1]
  norm_num

lemma srcY_ex1 : srcY c0 a0 1 = 1 := by
  unfold srcY crop_h
  rw [ny_ex1]
  norm_num [c0]

lemma srcX_ex1 : srcX c0 a0 1 = 1 := by
  unfold srcX crop_w
  rw [nx_ex1]
  norm_num [c0]

lemma sampleChar_ex : sampleChar art0 c0 a0 1 1 = '#' := by
  unfold sampleChar
  rw [srcY_ex1, srcX_ex1]
  rfl

lemma uOf_ex : uOf c0 a0 1 = 0 := by
  unfold uOf
  rw [nx_ex1]
  norm_num

lemma vOf_ex : vOf c0 a0 1 = 0 := by
  unfold vOf
  rw [ny_ex1]
  norm_num

lemma specIntensity_ex : specIntensity c0 a0 (1/2) 1 1 = 1 := by
  unfold specIntensity zOf
  rw [uOf_ex, vOf_ex]
  push_cast
  rw [show (2 * Real.pi * (1/2) : ℝ) = Real.pi by ring, Real.sin_pi, Real.cos_pi]
  norm_num [Real.sqrt_one]

/-- Witness for C1: the drawn rectangle of the concrete area keeps the
crop aspect ratio. -/
theorem aspect_fit_correct_witness :
    (drawDims c0 a0).1 / (drawDims c0 a0).2 = crop_w c0 / crop_h c0 :=
  (aspect_fit_correct c0 a0 (by norm_num [a0]) (by norm_num [a0])).2.2.1

/-- Witness for C2: the concrete corner cell lies outside the mask and is
left untouched. -/
theorem body_mask_invariant_witness :
    renderBodyCell art0 c0 a0 0 false 0 0 = none :=
  (body_mask_invariant art0 c0 a0 0 false 0 0).2 (by rw [distSq_ex00]; norm_num)

/-- Witness for C3: the concrete center cell at full moon is written lit
with the sampled character. -/
theorem body_shading_trichotomy_witness :
    renderBodyCell art0 c0 a0 (1/2) false 1 1 = some ('#', Fam.lit) := by
  rw [body_shading_trichotomy art0 c0 a0 (1/2) false 1 1
    (by rw [ny_ex1]; norm_num) (by rw [nx_ex1]; norm_num)
    (by rw [srcY_ex1]; norm_num [art0]) (by rw [distSq_ex11]; norm_num)]
  rw [if_pos (by rw [specIntensity_ex]; norm_num), sampleChar_ex]

/-! Frame-effect lemmas for the buffer writes. -/

lemma writeCell_ne (b : MoonBuffer) (x y : ℕ) (cell : Char × Color)
    (q : ℕ × ℕ) (h : q ≠ (x, y)) : writeCell b x y cell q = b q :=
  if_neg h

lemma strWidth_cons (uw : Char → ℕ) (ch : Char) (rest : List Char) :
    strWidth uw (ch :: rest) = uw ch + strWidth uw rest := by
  simp [strWidth]

lemma writeStr_outside (uw : Char → ℕ) (y : ℕ) (q : ℕ × ℕ) :
    ∀ (name : List Char) (b : MoonBuffer) (x : ℕ),
      q.2 ≠ y ∨ q.1 < x ∨ x + strWidth uw name < q.1 →
      writeStr uw b x y name q = b q := by
  intro name
  induction name with
  | nil =>
    intro b x _
    rfl
  | cons ch rest ih =>
    intro b x h
    show writeStr uw (writeCell b x y (ch, Color.cyan)) (x + uw ch) y rest q = b q
    have hrec : q.2 ≠ y ∨ q.1 < x + uw ch ∨ (x + uw ch) + strWidth uw rest < q.1 := by
      rcases h with h | h | h
      · exact Or.inl h
      · exact Or.inr (Or.inl (by omega))
      · rw [strWidth_cons] at h
        exact Or.inr (Or.inr (by omega))
    rw [ih (writeCell b x y (ch, Color.cyan)) (x + uw ch) hrec]
    apply writeCell_ne
    rcases h with h | h | h
    · intro he
      rw [he] at h
      exact h rfl
    · intro he
      rw [he] at h
      simp at h
    · intro he
      rw [strWidth_cons] at h
      rw [he] at h
      simp at h

lemma labelStep_outside (a : Rect) (c : CropBox) (uw : Char → ℕ) (lang : ℕ)
    (b : MoonBuffer) (f : Feature) (q : ℕ × ℕ) (hq : ¬ inArea a q) :
    labelStep a c uw lang b f q = b q := by
  unfold labelStep
  split_ifs with hin hfit
  · have hl : a.left ≤ feature_x c a f := hin.1
    have hr : feature_x c a f < a.right := hin.2.1
    have ht : a.top ≤ feature_y c a f := hin.2.2.1
    have hb : feature_y c a f < a.bottom := hin.2.2.2
    rw [writeStr_outside uw (feature_y c a f) q _ _ _ ?hdisj]
    · apply writeCell_ne
      intro he
      rw [he] at hq
      exact hq hin
    case hdisj =>
      by_cases hy : q.2 = feature_y c a f
      · unfold inArea at hq
        push_neg at hq
        right
        by_cases hcl : q.1 < a.left
        · left
          omega
        · right
          have hql : a.left ≤ q.1 := by omega
          have hqr : a.right ≤ q.1 := by
            by_contra hlt
            push_neg at hlt
            have hbot : a.bottom ≤ q.2 := hq hql hlt (by rw [hy]; exact ht)
            rw [hy] at hbot
            omega
          omega
      · exact Or.inl hy
  · apply writeCell_ne
    intro he
    rw [he] at hq
    exact hq hin
  · rfl

lemma labelPass_outside (a : Rect) (c : CropBox) (uw : Char → ℕ) (lang : ℕ)
    (q : ℕ × ℕ) (hq : ¬ inArea a q) :
    ∀ (feats : List Feature) (b : MoonBuffer), labelPass a c uw lang feats b q = b q := by
  intro feats
  induction feats with
  | nil =>
    intro b
    rfl
  | cons f rest ih =>
    intro b
    show labelPass a c uw lang rest (labelStep a c uw lang b f) q = b q
    rw [ih (labelStep a c uw lang b f), labelStep_outside a c uw lang b f q hq]

lemma bodyPass_outside (src : List (List Char)) (c : CropBox) (a : Rect)
    (phase : ℝ) (hd tc : Bool) (buf : MoonBuffer) (q : ℕ × ℕ) (hq : ¬ inArea a q) :
    bodyPass src c a phase hd tc buf q = buf q :=
  if_neg hq

lemma not_inArea_of_degenerate (a : Rect) (h : a.width = 0 ∨ a.height = 0) (q : ℕ × ℕ) :
    ¬ inArea a q := by
  intro hin
  have h1 : a.left ≤ q.1 := hin.1
  have h2 : q.1 < a.right := hin.2.1
  have h3 : a.top ≤ q.2 := hin.2.2.1
  have h4 : q.2 < a.bottom := hin.2.2.2
  unfold Rect.right at h2
  unfold Rect.bottom at h4
  rcases h with h | h <;> omega

/-- Claim C10: a render call never changes any cell outside the target area,
whether or not labels are enabled. -/
theorem render_frame_effect (art : List (List Char)) (feats : List Feature)
    (uw : Char → ℕ) (a : Rect) (phase : ℝ) (sl hd : Bool) (lang : ℕ) (tc : Bool)
    (buf : MoonBuffer) (p : ℕ × ℕ) (hp : ¬ inArea a p) :
    render art feats uw a phase sl hd lang tc buf p = buf p := by
  unfold render
  by_cases hsrc : sourceLines art = []
  · rw [if_pos hsrc]
  · rw [if_neg hsrc]
    rcases hcb : cropBox (sourceLines art) with _ | c
    · rfl
    · simp only
      split_ifs with hsl
      · rw [labelPass_outside a c uw lang p hp]
        exact bodyPass_outside _ c a phase hd tc buf p hp
      · exact bodyPass_outside _ c a phase hd tc buf p hp

/-- Witness for C10: a cell outside the concrete area keeps its content. -/
theorem render_frame_effect_witness :
    render art0 [⟨[['A', 'B']], 0, 0⟩] uwOne a0 (1/2) true false 0 true buf0 (10, 10)
      = buf0 (10, 10) :=
  render_frame_effect art0 [⟨[['A', 'B']], 0, 0⟩] uwOne a0 (1/2) true false 0 true
    buf0 (10, 10) (by decide)

/-- Claim C7: a zero-width or zero-height target area, an empty texture, or an
all-space texture (no crop box) makes render leave the buffer untouched:
the output grid is empty and the function is total. -/
theorem degenerate_inputs_empty (art : List (List Char)) (feats : List Feature)
    (uw : Char → ℕ) (a : Rect) (phase : ℝ) (sl hd : Bool) (lang : ℕ) (tc : Bool)
    (buf : MoonBuffer)
    (h : a.width = 0 ∨ a.height = 0 ∨ sourceLines art = [] ∨
      cropBox (sourceLines art) = none) :
    render art feats uw a phase sl hd lang tc buf = buf := by
  unfold render
  by_cases hsrc : sourceLines art = []
  · rw [if_pos hsrc]
  · rw [if_neg hsrc]
    rcases hcb : cropBox (sourceLines art) with _ | c
    · rfl
    · simp only
      have hwh : a.width = 0 ∨ a.height = 0 := by
        rcases h with h | h | h | h
        · exact Or.inl h
        · exact Or.inr h
        · exact absurd h hsrc
        · rw [hcb] at h
          exact absurd h (by simp)
      have hbody : bodyPass (sourceLines art) c a phase hd tc buf = buf :=
        funext fun p => bodyPass_outside _ c a phase hd tc buf p
          (not_inArea_of_degenerate a hwh p)
      split_ifs with hsl
      · rw [hbody]
        exact funext fun p => labelPass_outside a c uw lang p
          (not_inArea_of_degenerate a hwh p) feats buf
      · exact hbody

/-- Witness for C7: rendering into a zero-width area returns the buffer
unchanged. -/
theorem degenerate_inputs_empty_witness :
    render art0 [] uwOne ⟨0, 0, 0, 5⟩ 0 true true 0 true buf0 = buf0 :=
  degenerate_inputs_empty art0 [] uwOne ⟨0, 0, 0, 5⟩ 0 true true 0 true buf0 (Or.inl rfl)

/-- Claim C8: the marker cell of a feature is the orthographic projection
u = cos(lat) sin(lon), v = sin(lat), scaled by 0.95, offset by -0.10 on
both axes, mapped through nx = 0.5 + u_adj/2, ny = 0.5 - v_adj/2 and the
same start/draw geometry used for sampling; the marker is written only
when its cell lies in the area, and the name only when it fits entirely
before the right edge, otherwise the name is skipped. -/
theorem label_projection_and_fit (c : CropBox) (a : Rect) (uw : Char → ℕ)
    (lang : ℕ) (b : MoonBuffer) (f : Feature) :
    (feature_x c a f = u16ofReal ((startX c a : ℝ)
        + (0.5 + (Real.cos (deg_to_rad (f.lat : ℝ)) * Real.sin (deg_to_rad (f.lon : ℝ))
            * 0.95 - 0.10) / 2) * ((drawDims c a).1 : ℝ)) ∧
      feature_y c a f = u16ofReal ((startY c a : ℝ)
        + (0.5 - (Real.sin (deg_to_rad (f.lat : ℝ)) * 0.95 - 0.10) / 2)
          * ((drawDims c a).2 : ℝ))) ∧
    (¬ inArea a (feature_x c a f, feature_y c a f) → labelStep a c uw lang b f = b) ∧
    (inArea a (feature_x c a f, feature_y c a f) →
      (¬ (feature_x c a f + 1 + strWidth uw (f.names.getD lang []) < a.right) →
        labelStep a c uw lang b f
          = writeCell b (feature_x c a f) (feature_y c a f) ('x', Color.red)) ∧
      ((feature_x c a f + 1 + strWidth uw (f.names.getD lang []) < a.right) →
        labelStep a c uw lang b f
          = writeStr uw (writeCell b (feature_x c a f) (feature_y c a f) ('x', Color.red))
              (feature_x c a f + 1) (feature_y c a f) (f.names.getD lang []))) := by
  refine ⟨⟨rfl, rfl⟩, ?_, ?_⟩
  · intro h
    unfold labelStep
    rw [if_neg h]
  · intro hin
    constructor
    · intro hnofit
      unfold labelStep
      rw [if_pos hin, if_neg hnofit]
    · intro hfit
      unfold labelStep
      rw [if_pos hin, if_pos hfit]

/-! Concrete feature used by the label witness. -/

/-- Feature at the sub-observer point (latitude and longitude zero). -/
def f0 : Feature := ⟨[['A', 'B']], 0, 0⟩

lemma featureNx_f0 : featureNx f0 = 0.45 := by
  unfold featureNx featureU
  show 0.5 + (Real.cos (deg_to_rad ((0:ℚ) : ℝ)) * Real.sin (deg_to_rad ((0:ℚ) : ℝ))
    * 0.95 - 0.10) / 2 = 0.45
  norm_num [deg_to_rad, Real.cos_zero, Real.sin_zero]

lemma featureNy_f0 : featureNy f0 = 0.55 := by
  unfold featureNy featureV
  show 0.5 - (Real.sin (deg_to_rad ((0:ℚ) : ℝ)) * 0.95 - 0.10) / 2 = 0.55
  norm_num [deg_to_rad, Real.sin_zero]

lemma feature_x_f0 : feature_x c0 a0 f0 = 0 := by
  unfold feature_x
  rw [featureNx_f0, startX_ex, drawDims_ex]
  rw [show (((0:ℚ) : ℝ) + 0.45 * (((2, 2) : ℚ × ℚ).1 : ℝ)) = 0.9 by push_cast; norm_num]
  unfold u16ofReal
  rw [if_neg (by norm_num)]
  norm_num

lemma feature_y_f0 : feature_y c0 a0 f0 = 1 := by
  unfold feature_y
  rw [featureNy_f0, startY_ex, drawDims_ex]
  rw [show (((0:ℚ) : ℝ) + 0.55 * (((2, 2) : ℚ × ℚ).2 : ℝ)) = 1.1 by push_cast; norm_num]
  unfold u16ofReal
  rw [if_neg (by norm_num)]
  norm_num

/-- Witness for C8: the concrete feature marker lands inside the area but
its name does not fit, so exactly the marker cell is written. -/
theorem label_projection_and_fit_witness :
    labelStep a0 c0 uwOne 0 buf0 f0 = writeCell buf0 0 1 ('x', Color.red) := by
  have hin : inArea a0 (feature_x c0 a0 f0, feature_y c0 a0 f0) := by
    rw [feature_x_f0, feature_y_f0]
    decide
  have hnofit : ¬ (feature_x c0 a0 f0 + 1 + strWidth uwOne (f0.names.getD 0 []) < a0.right) := by
    rw [feature_x_f0]
    decide
  have h := ((label_projection_and_fit c0 a0 uwOne 0 buf0 f0).2.2 hin).1 hnofit
  rw [h, feature_x_f0, feature_y_f0]
